import Mathlib

/-!
Verification development for the staff_test repository: a shallow embedding in
Lean 4 of the procedural mesh generators (cylinder.rs, crystal.rs, staff.rs,
cone.rs) and of the orbit camera controller (camera.rs), together with theorems
settling the specification claims about them.

Modelling conventions.
Scalars are embedded as rationals. The foreign math library routines are
abstracted as explicit function parameters: sc models bevy sin_cos and returns
the pair (sin theta, cos theta); sqrtF models f32 sqrt. An f32 division is
modelled by fdiv, which returns none exactly when the divisor is zero (the
hardware division then yields no finite numeric value: NaN or an infinity).
The ChaCha8 random generator of staff.rs is abstracted as the stream u of its
successive draws, consumed in program order. Machine u32 arithmetic on sizes
and indices is embedded as Nat arithmetic; the only subtractions performed by
the source (num_rings - 2, resolution - 1, resolution - 2) never underflow on
the inputs admitted by the debug assertions, where they agree with truncated
Nat subtraction.
-/

namespace StaffScene

/-- Division of f32 values as used by the generators: none marks the case of a
zero divisor, where the hardware division produces no finite value. -/
def fdiv (a b : ℚ) : Option ℚ := if b = 0 then none else some (a / b)

/-- Three-component vector of rational scalars standing in for bevy Vec3. -/
structure Vec3q where
  x : ℚ
  y : ℚ
  z : ℚ
deriving DecidableEq, Repr

/-- Componentwise subtraction of vectors. -/
def vsub (a b : Vec3q) : Vec3q := ⟨a.x - b.x, a.y - b.y, a.z - b.z⟩

/-- Scalar multiplication of a vector. -/
def vsmul (a : Vec3q) (k : ℚ) : Vec3q := ⟨a.x * k, a.y * k, a.z * k⟩

/-- Squared euclidean distance between two points. -/
def distSq (a b : Vec3q) : ℚ :=
  (a.x - b.x) ^ 2 + (a.y - b.y) ^ 2 + (a.z - b.z) ^ 2

/-- The f32 constant TAU (two pi) as the exact rational value of the 32-bit
float: 13176795 * 2 ^ (-21). -/
def TAU : ℚ := 13176795 / 2097152

/-- Mesh buffers produced by a generator: positions, normals, uv coordinates
and the flat triangle index list (three consecutive entries form a triangle,
matching PrimitiveTopology TriangleList). -/
structure MeshData where
  positions : List Vec3q
  normals : List Vec3q
  uvs : List (Option ℚ × Option ℚ)
  indices : List ℕ

/-- Nested loop emission order shared by the ring loops: for each outer index
below n, for each inner index below m, emit f outer inner. -/
def grid {α : Type} (n m : ℕ) (f : ℕ → ℕ → α) : List α :=
  (List.range n).flatMap fun i => (List.range m).map (f i)

/-- Grouping of a flat index list into consecutive triangles, as the renderer
reads a TriangleList index buffer. -/
def triangles : List ℕ → List (ℕ × ℕ × ℕ)
  | a :: b :: c :: rest => (a, b, c) :: triangles rest
  | _ => []

/-! Ring and cap emission shared verbatim by cylinder.rs lines 63 to 131,
crystal.rs lines 53 to 113 and staff.rs lines 85 to 179. -/

/-- Position pushed by the ring loop of generate_cylinder_mesh and
generate_crystal_mesh: (radius * cos, y, radius * sin) with
y = -half_height + ring * step_y and theta = segment * step_theta. -/
def ring_position (sc : ℚ → ℚ × ℚ) (radius height : ℚ) (resolution segments : ℕ)
    (ring segment : ℕ) : Vec3q :=
  let half_height := height / 2
  let step_theta := TAU / (resolution : ℚ)
  let step_y := 2 * half_height / (segments : ℚ)
  let y := -half_height + (ring : ℚ) * step_y
  let theta := (segment : ℚ) * step_theta
  ⟨radius * (sc theta).2, y, radius * (sc theta).1⟩

/-- Lateral normal pushed by every ring loop: (cos, 0, sin). -/
def ring_normal (sc : ℚ → ℚ × ℚ) (resolution : ℕ) (segment : ℕ) : Vec3q :=
  let theta := (segment : ℚ) * (TAU / (resolution : ℚ))
  ⟨(sc theta).2, 0, (sc theta).1⟩

/-- Lateral normals in emission order, one per ring loop iteration. -/
def ring_normals (sc : ℚ → ℚ × ℚ) (resolution segments : ℕ) : List Vec3q :=
  grid (segments + 1) (resolution + 1) fun _ segment => ring_normal sc resolution segment

/-- UV pair pushed by every ring loop: the first component is
segment / resolution and the second is ring / segment, both f32 divisions. -/
def ring_uv (resolution : ℕ) (ring segment : ℕ) : Option ℚ × Option ℚ :=
  (fdiv (segment : ℚ) (resolution : ℚ), fdiv (ring : ℚ) (segment : ℚ))

/-- UV pairs of the ring loops in emission order. -/
def ring_uvs (resolution segments : ℕ) : List (Option ℚ × Option ℚ) :=
  grid (segments + 1) (resolution + 1) (ring_uv resolution)

/-- Position pushed by build_cap of cylinder.rs and crystal.rs:
(cos * radius, y, sin * radius). -/
def cap_position (sc : ℚ → ℚ × ℚ) (radius y : ℚ) (resolution : ℕ) (i : ℕ) : Vec3q :=
  let theta := (i : ℚ) * (TAU / (resolution : ℚ))
  ⟨(sc theta).2 * radius, y, (sc theta).1 * radius⟩

/-- UV pushed for every cap vertex:
(0.5 * (cos + 1), 1 - 0.5 * (sin + 1)). -/
def cap_uv (sc : ℚ → ℚ × ℚ) (resolution : ℕ) (i : ℕ) : Option ℚ × Option ℚ :=
  let theta := (i : ℚ) * (TAU / (resolution : ℚ))
  (some (1 / 2 * ((sc theta).2 + 1)), some (1 - 1 / 2 * ((sc theta).1 + 1)))

/-- Barrel skin index emission: for each vertical segment i and angular step j,
the two triangles of the quad between ring i and ring i + 1. -/
def barrel_indices (resolution segments : ℕ) : List ℕ :=
  (List.range segments).flatMap fun i =>
    (List.range resolution).flatMap fun j =>
      [i * (resolution + 1) + j,
       (i + 1) * (resolution + 1) + j,
       i * (resolution + 1) + j + 1,
       (i + 1) * (resolution + 1) + j,
       (i + 1) * (resolution + 1) + j + 1,
       i * (resolution + 1) + j + 1]

/-- Cap fan index emission of build_cap: for i from 1 to resolution - 2 the
triangle (offset, offset + i + w0, offset + i + w1), where offset is the
number of positions already emitted and (w0, w1) is the winding pair,
(1, 0) for the top cap and (0, 1) for the bottom cap. -/
def cap_indices (offset w0 w1 : ℕ) (resolution : ℕ) : List ℕ :=
  (List.range' 1 (resolution - 2)).flatMap fun i =>
    [offset, offset + i + w0, offset + i + w1]

/-- Complete index buffer of the capped revolved solids: barrel skin, then top
cap fan at offset (segments + 1) * (resolution + 1), then bottom cap fan at
offset (segments + 1) * (resolution + 1) + resolution. The offsets are the
values of positions.len() at the two build_cap calls. -/
def revolved_indices (resolution segments : ℕ) : List ℕ :=
  barrel_indices resolution segments
    ++ cap_indices ((segments + 1) * (resolution + 1)) 1 0 resolution
    ++ cap_indices ((segments + 1) * (resolution + 1) + resolution) 0 1 resolution

/-- Source capacity formula of cylinder.rs lines 50 to 53: with
num_rings = segments + 1 and num_faces = resolution * (num_rings - 2), the
reserved index count is (2 * num_faces + 2 * (resolution - 1) * 2) * 3. -/
def cylinder_num_indices (resolution segments : ℕ) : ℕ :=
  let num_rings := segments + 1
  let num_faces := resolution * (num_rings - 2)
  (2 * num_faces + 2 * (resolution - 1) * 2) * 3

/-- Source capacity formula for vertices, cylinder.rs line 51:
resolution * 2 + num_rings * (resolution + 1). -/
def cylinder_num_vertices (resolution segments : ℕ) : ℕ :=
  resolution * 2 + (segments + 1) * (resolution + 1)

/-- Auxiliary resource of cylinder.rs holding a copy of every emitted vertex
position and normal direction for the debug arrow gizmos. -/
structure CylinderNormals where
  positions : List Vec3q
  directions : List Vec3q
  origin : Vec3q

/-- Embedding of generate_cylinder_mesh (cylinder.rs lines 39 to 143). Every
ring loop iteration pushes one position, one normal and one uv onto the mesh
buffers and mirrors the position and the normal into the CylinderNormals
resource; both build_cap calls do the same for the cap vertices. The returned
pair is the mesh and the updated resource. -/
def generate_cylinder_mesh (sc : ℚ → ℚ × ℚ) (radius height : ℚ)
    (resolution segments : ℕ) (crystal_normals : CylinderNormals) :
    MeshData × CylinderNormals :=
  let half_height := height / 2
  let ringPos := grid (segments + 1) (resolution + 1)
    (ring_position sc radius height resolution segments)
  let ringNorm := ring_normals sc resolution segments
  let ringUv := ring_uvs resolution segments
  let capTopPos := (List.range resolution).map (cap_position sc radius half_height resolution)
  let capBotPos := (List.range resolution).map (cap_position sc radius (-half_height) resolution)
  let capTopNorm := (List.range resolution).map fun _ => (⟨0, 1, 0⟩ : Vec3q)
  let capBotNorm := (List.range resolution).map fun _ => (⟨0, -1, 0⟩ : Vec3q)
  let capUv := (List.range resolution).map (cap_uv sc resolution)
  let positions := ringPos ++ (capTopPos ++ capBotPos)
  let normals := ringNorm ++ (capTopNorm ++ capBotNorm)
  let uvs := ringUv ++ (capUv ++ capUv)
  let indices := revolved_indices resolution segments
  (⟨positions, normals, uvs, indices⟩,
   { crystal_normals with
       positions := crystal_normals.positions ++ positions
       directions := crystal_normals.directions ++ normals })

/-- Embedding of generate_crystal_mesh (crystal.rs lines 34 to 125): the same
ring, barrel and cap code as the cylinder with segments fixed to 1, the radius
parameter used unchanged at every ring, and no auxiliary resource. The second
parameter is named height as in the source signature; the call site of
spawn_crystal_mesh passes the radial variance value for it. -/
def generate_crystal_mesh (sc : ℚ → ℚ × ℚ) (radius height : ℚ)
    (resolution : ℕ) : MeshData :=
  let segments := 1
  let half_height := height / 2
  let ringPos := grid (segments + 1) (resolution + 1)
    (ring_position sc radius height resolution segments)
  let ringNorm := ring_normals sc resolution segments
  let ringUv := ring_uvs resolution segments
  let capTopPos := (List.range resolution).map (cap_position sc radius half_height resolution)
  let capBotPos := (List.range resolution).map (cap_position sc radius (-half_height) resolution)
  let capTopNorm := (List.range resolution).map fun _ => (⟨0, 1, 0⟩ : Vec3q)
  let capBotNorm := (List.range resolution).map fun _ => (⟨0, -1, 0⟩ : Vec3q)
  let capUv := (List.range resolution).map (cap_uv sc resolution)
  ⟨ringPos ++ (capTopPos ++ capBotPos),
   ringNorm ++ (capTopNorm ++ capBotNorm),
   ringUv ++ (capUv ++ capUv),
   revolved_indices resolution segments⟩

/-- Sampling of rand.random_range(lo..hi), with u the unit draw consumed by
the call. -/
def random_range (lo hi u : ℚ) : ℚ := lo + (hi - lo) * u

/-- Bottom ring variance draws of staff.rs lines 73 to 75: radial draw in
(radius / 2 - radial_variance)..(radius / 2), then the two unit draws for the
horizontal offsets. Stream slots 0, 1, 2. -/
def staff_bottom_variance (radius radial_variance : ℚ) (u : ℕ → ℚ) : ℚ × ℚ × ℚ :=
  (random_range (radius / 2 - radial_variance) (radius / 2) (u 0), u 1, u 2)

/-- Top ring variance draws of staff.rs lines 77 to 79: radial draw in
(radius - radial_variance)..radius, then two unit draws. Stream slots 3, 4, 5. -/
def staff_top_variance (radius radial_variance : ℚ) (u : ℕ → ℚ) : ℚ × ℚ × ℚ :=
  (random_range (radius - radial_variance) radius (u 3), u 4, u 5)

/-- Per-ring variance selection of staff.rs lines 90 to 103: ring 0 reuses the
bottom draws, the last ring reuses the top draws, and every middle ring
consumes three fresh draws in ring order (slots 6 + 3 * (ring - 1) onward). -/
def staff_ring_variance (radius radial_variance : ℚ) (u : ℕ → ℚ)
    (num_rings ring : ℕ) : ℚ × ℚ × ℚ :=
  if ring = 0 then staff_bottom_variance radius radial_variance u
  else if ring = num_rings - 1 then staff_top_variance radius radial_variance u
  else
    (random_range (radius - radial_variance) radius (u (6 + 3 * (ring - 1))),
     u (7 + 3 * (ring - 1)), u (8 + 3 * (ring - 1)))

/-- Position pushed by the staff ring loop (staff.rs line 112):
(vr * cos + offset.0, y, vr * sin + offset.1) where (vr, vx, vz) is the ring
variance and offset scales (vx, vz) by horizontal_variance. -/
def staff_ring_position (sc : ℚ → ℚ × ℚ)
    (radius radial_variance height horizontal_variance : ℚ) (u : ℕ → ℚ)
    (resolution segments : ℕ) (ring segment : ℕ) : Vec3q :=
  let v := staff_ring_variance radius radial_variance u (segments + 1) ring
  let offset := (horizontal_variance * v.2.1, horizontal_variance * v.2.2)
  let half_height := height / 2
  let step_y := 2 * half_height / (segments : ℚ)
  let y := -half_height + (ring : ℚ) * step_y
  let theta := (segment : ℚ) * (TAU / (resolution : ℚ))
  ⟨v.1 * (sc theta).2 + offset.1, y, v.1 * (sc theta).1 + offset.2⟩

/-- Position pushed by the staff build_cap (staff.rs lines 164 to 168), using
the cap ring variance radius and offsets. -/
def staff_cap_position (sc : ℚ → ℚ × ℚ) (radial_variance y ox oz : ℚ)
    (resolution : ℕ) (i : ℕ) : Vec3q :=
  let theta := (i : ℚ) * (TAU / (resolution : ℚ))
  ⟨(sc theta).2 * radial_variance + ox, y, (sc theta).1 * radial_variance + oz⟩

/-- Embedding of generate_staff_mesh (staff.rs lines 43 to 191): jittered
rings, the shared lateral normals, uvs and index emission, and caps placed
with the top and bottom ring variances. -/
def generate_staff_mesh (sc : ℚ → ℚ × ℚ)
    (radius radial_variance height : ℚ) (resolution segments : ℕ)
    (horizontal_variance : ℚ) (u : ℕ → ℚ) : MeshData :=
  let half_height := height / 2
  let bv := staff_bottom_variance radius radial_variance u
  let tv := staff_top_variance radius radial_variance u
  let ringPos := grid (segments + 1) (resolution + 1)
    (staff_ring_position sc radius radial_variance height horizontal_variance u
      resolution segments)
  let ringNorm := ring_normals sc resolution segments
  let ringUv := ring_uvs resolution segments
  let capTopPos := (List.range resolution).map
    (staff_cap_position sc tv.1 half_height
      (horizontal_variance * tv.2.1) (horizontal_variance * tv.2.2) resolution)
  let capBotPos := (List.range resolution).map
    (staff_cap_position sc bv.1 (-half_height)
      (horizontal_variance * bv.2.1) (horizontal_variance * bv.2.2) resolution)
  let capTopNorm := (List.range resolution).map fun _ => (⟨0, 1, 0⟩ : Vec3q)
  let capBotNorm := (List.range resolution).map fun _ => (⟨0, -1, 0⟩ : Vec3q)
  let capUv := (List.range resolution).map (cap_uv sc resolution)
  ⟨ringPos ++ (capTopPos ++ capBotPos),
   ringNorm ++ (capTopNorm ++ capBotNorm),
   ringUv ++ (capUv ++ capUv),
   revolved_indices resolution segments⟩

/-- Lateral normal of the cone sides (cone.rs line 74):
(cos, normal_slope, sin) scaled by the normalization factor. -/
def cone_side_normal (sc : ℚ → ℚ × ℚ) (normal_slope normalization_factor : ℚ)
    (resolution : ℕ) (segment : ℕ) : Vec3q :=
  let theta := (segment : ℚ) * (TAU / (resolution : ℚ))
  ⟨(sc theta).2 * normalization_factor, normal_slope * normalization_factor,
   (sc theta).1 * normalization_factor⟩

/-- Embedding of generate_cone_mesh (cone.rs lines 27 to 120): one apex vertex
with the zero normal, resolution lateral base vertices with the analytic side
normal, a fan of lateral triangles through the apex, then the base disk with
flat normals and its own fan. sqrtF models f32 sqrt, used for the
normalization factor 1 / sqrt(1 + normal_slope ^ 2). -/
def generate_cone_mesh (sc : ℚ → ℚ × ℚ) (sqrtF : ℚ → ℚ)
    (height radius : ℚ) (resolution : ℕ) : MeshData :=
  let half_height := height / 2
  let normal_slope := radius / height
  let normalization_factor := (sqrtF (1 + normal_slope * normal_slope))⁻¹
  let tipPos : Vec3q := ⟨0, half_height, 0⟩
  let tipNormal : Vec3q := ⟨0, 0, 0⟩
  let tipUv : Option ℚ × Option ℚ := (some (1 / 2), some (1 / 2))
  let sidePos := (List.range resolution).map fun segment =>
    let theta := (segment : ℚ) * (TAU / (resolution : ℚ))
    (⟨radius * (sc theta).2, -half_height, radius * (sc theta).1⟩ : Vec3q)
  let sideNorm := (List.range resolution).map
    (cone_side_normal sc normal_slope normalization_factor resolution)
  let sideUv := (List.range resolution).map fun segment =>
    let theta := (segment : ℚ) * (TAU / (resolution : ℚ))
    ((some (1 / 2 + (sc theta).2 * (1 / 2)), some (1 / 2 + (sc theta).1 * (1 / 2))) :
      Option ℚ × Option ℚ)
  let lateralIndices := ((List.range' 1 (resolution - 1)).flatMap fun j =>
    [0, j + 1, j]) ++ [0, 1, resolution]
  let index_offset := resolution + 1
  let basePos := (List.range resolution).map
    (cap_position sc radius (-half_height) resolution)
  let baseNorm := (List.range resolution).map fun _ => (⟨0, -1, 0⟩ : Vec3q)
  let baseUv := (List.range resolution).map (cap_uv sc resolution)
  ⟨[tipPos] ++ sidePos ++ basePos,
   [tipNormal] ++ sideNorm ++ baseNorm,
   [tipUv] ++ sideUv ++ baseUv,
   lateralIndices ++ cap_indices index_offset 0 1 resolution⟩

/-! Orbit camera controller, camera.rs. The camera rotation is stored by the
source as a quaternion and converted to and from YXZ euler angles on every
update, so the state is embedded directly as the euler triple together with
the translation. The functions cosF and sinF model the f32 cosine and sine
used inside the quaternion construction. -/

/-- The f32 constant FRAC_PI_2 as the exact rational value of the 32-bit
float: 13176795 * 2 ^ (-23). -/
def FRAC_PI_2 : ℚ := 13176795 / 8388608

/-- Constant CAMERA_DISTANCE of camera.rs line 6. -/
def CAMERA_DISTANCE : ℚ := 7 / 2

/-- Constant CAMERA_TARGET of camera.rs line 7. -/
def CAMERA_TARGET : Vec3q := ⟨0, 3 / 2, 0⟩

/-- Settings resource of camera.rs lines 9 to 16, with the pitch range stored
as its two endpoints. -/
structure CameraSettings where
  orbit_distance : ℚ
  pitch_speed : ℚ
  pitch_range_start : ℚ
  pitch_range_end : ℚ
  yaw_speed : ℚ

/-- Default settings of camera.rs lines 17 to 30: orbit distance
CAMERA_DISTANCE * 1.5, pitch speed 0.01, pitch range
-(FRAC_PI_2 - 0.01)..0, yaw speed 0.0075. -/
def CameraSettings.default : CameraSettings :=
  let pitch_limit := FRAC_PI_2 - 1 / 100
  { orbit_distance := CAMERA_DISTANCE * (3 / 2)
    pitch_speed := 1 / 100
    pitch_range_start := -pitch_limit
    pitch_range_end := 0
    yaw_speed := 3 / 400 }

/-- Camera transform state: YXZ euler angles of the rotation plus the
translation. -/
structure TransformQ where
  yaw : ℚ
  pitch : ℚ
  roll : ℚ
  translation : Vec3q
deriving DecidableEq

/-- Clamp of f32 values (Rust clamp with min at most max and no NaN):
below min gives min, above max gives max, otherwise unchanged. -/
def fclamp (x lo hi : ℚ) : ℚ := if x < lo then lo else if x > hi then hi else x

/-- Forward direction of the camera: the rotation
Quat::from_euler(YXZ, yaw, pitch, roll) applied to the -Z axis, which is
(-sin yaw * cos pitch, sin pitch, -cos yaw * cos pitch); the roll rotation
about Z fixes -Z and does not appear. -/
def forward (cosF sinF : ℚ → ℚ) (yaw pitch : ℚ) : Vec3q :=
  ⟨-(sinF yaw * cosF pitch), sinF pitch, -(cosF yaw * cosF pitch)⟩

/-- Embedding of handle_camera_movement (camera.rs lines 54 to 86): when the
right or middle button is held, pitch moves by -delta.y * pitch_speed and is
clamped to the configured range, yaw moves by -delta.x * yaw_speed unclamped,
roll is kept, and the translation is recomputed as
target - forward * orbit_distance; otherwise the transform is untouched. -/
def handle_camera_movement (cosF sinF : ℚ → ℚ)
    (camera_settings : CameraSettings) (pressed_right pressed_middle : Bool)
    (delta : ℚ × ℚ) (camera_pivot : TransformQ) : TransformQ :=
  if pressed_right || pressed_middle then
    let delta_pitch := delta.2 * camera_settings.pitch_speed
    let delta_yaw := delta.1 * camera_settings.yaw_speed
    let pitch := fclamp (camera_pivot.pitch - delta_pitch)
      camera_settings.pitch_range_start camera_settings.pitch_range_end
    let yaw := camera_pivot.yaw - delta_yaw
    { yaw := yaw, pitch := pitch, roll := camera_pivot.roll
      translation := vsub CAMERA_TARGET
        (vsmul (forward cosF sinF yaw pitch) camera_settings.orbit_distance) }
  else camera_pivot

/-- Concrete instantiation of the abstract trig parameter, used to evaluate
the generators on explicit inputs. -/
def sc_probe : ℚ → ℚ × ℚ := fun theta => (theta, theta + 1)

/-! Generic helper lemmas about the emission order combinators. -/

theorem grid_succ {α : Type} (n m : ℕ) (f : ℕ → ℕ → α) :
    grid (n + 1) m f = grid n m f ++ (List.range m).map (f n) := by
  simp [grid, List.range_succ]

theorem grid_length {α : Type} (n m : ℕ) (f : ℕ → ℕ → α) :
    (grid n m f).length = n * m := by
  induction n with
  | zero => simp [grid]
  | succ k ih =>
      rw [grid_succ, List.length_append, ih, List.length_map, List.length_range]
      ring

theorem grid_getElem {α : Type} (n m : ℕ) (f : ℕ → ℕ → α) (i j : ℕ)
    (hi : i < n) (hj : j < m) : (grid n m f)[i * m + j]? = some (f i j) := by
  induction n with
  | zero => omega
  | succ k ih =>
      rw [grid_succ]
      rcases Nat.lt_or_ge i k with h | h
      · rw [List.getElem?_append, if_pos]
        · exact ih h
        · rw [grid_length]
          have hmul : (i + 1) * m ≤ k * m := Nat.mul_le_mul_right m (by omega)
          have hsucc : (i + 1) * m = i * m + m := Nat.succ_mul i m
          omega
      · have hik : i = k := by omega
        subst hik
        rw [List.getElem?_append_right (by rw [grid_length]; omega)]
        rw [grid_length, Nat.add_sub_cancel_left]
        simp [List.getElem?_map, List.getElem?_range, hj]

theorem triangles_append : ∀ (l₁ l₂ : List ℕ), l₁.length % 3 = 0 →
    triangles (l₁ ++ l₂) = triangles l₁ ++ triangles l₂
  | [], _, _ => rfl
  | [_], _, h => by simp at h
  | [_, _], _, h => by simp at h
  | _ :: _ :: _ :: rest, l₂, h => by
      have hr : rest.length % 3 = 0 := by
        simp only [List.length_cons] at h
        omega
      have ih := triangles_append rest l₂ hr
      simp [triangles, ih]

theorem triangles_flatMap {α : Type} (l : List α) (f : α → List ℕ)
    (h : ∀ a ∈ l, (f a).length % 3 = 0) :
    triangles (l.flatMap f) = l.flatMap fun a => triangles (f a) := by
  induction l with
  | nil => rfl
  | cons a t ih =>
      rw [List.flatMap_cons, triangles_append (f a) (t.flatMap f) (h a (by simp)),
        List.flatMap_cons, ih (fun b hb => h b (by simp [hb]))]

theorem length_flatMap_const {α : Type} (l : List α) (f : α → List ℕ) (k : ℕ)
    (h : ∀ a ∈ l, (f a).length = k) : (l.flatMap f).length = l.length * k := by
  induction l with
  | nil => simp
  | cons a t ih =>
      rw [List.flatMap_cons, List.length_append, h a (by simp),
        ih (fun b hb => h b (by simp [hb])), List.length_cons]
      ring

theorem barrel_indices_length (resolution segments : ℕ) :
    (barrel_indices resolution segments).length = segments * (resolution * 6) := by
  have h : ∀ i : ℕ, (((List.range resolution).flatMap fun j =>
      [i * (resolution + 1) + j, (i + 1) * (resolution + 1) + j,
       i * (resolution + 1) + j + 1, (i + 1) * (resolution + 1) + j,
       (i + 1) * (resolution + 1) + j + 1, i * (resolution + 1) + j + 1]) :
        List ℕ).length = resolution * 6 := by
    intro i
    rw [length_flatMap_const (List.range resolution)
      (fun j => [i * (resolution + 1) + j, (i + 1) * (resolution + 1) + j,
        i * (resolution + 1) + j + 1, (i + 1) * (resolution + 1) + j,
        (i + 1) * (resolution + 1) + j + 1, i * (resolution + 1) + j + 1]) 6
      (fun b _ => rfl), List.length_range]
  rw [barrel_indices, length_flatMap_const _ _ (resolution * 6) (fun a _ => h a),
    List.length_range]

theorem cap_indices_length (offset w0 w1 resolution : ℕ) :
    (cap_indices offset w0 w1 resolution).length = (resolution - 2) * 3 := by
  have h : ∀ i : ℕ, ([offset, offset + i + w0, offset + i + w1] : List ℕ).length = 3 :=
    fun _ => rfl
  rw [cap_indices, length_flatMap_const _ _ 3 (fun a _ => h a), List.length_range']

theorem revolved_indices_length (resolution segments : ℕ) :
    (revolved_indices resolution segments).length =
      segments * (resolution * 6) + (resolution - 2) * 3 + (resolution - 2) * 3 := by
  rw [revolved_indices, List.length_append, List.length_append,
    barrel_indices_length, cap_indices_length, cap_indices_length]

theorem mem_triangles_flatMap {α : Type} (l : List α) (f : α → List ℕ)
    (h : ∀ a ∈ l, (f a).length % 3 = 0) (t : ℕ × ℕ × ℕ) :
    t ∈ triangles (l.flatMap f) ↔ ∃ a ∈ l, t ∈ triangles (f a) := by
  rw [triangles_flatMap l f h, List.mem_flatMap]

theorem barrel_length_mod3 (resolution segments : ℕ) :
    (barrel_indices resolution segments).length % 3 = 0 := by
  rw [barrel_indices_length]
  have h : segments * (resolution * 6) = 3 * (segments * (resolution * 2)) := by ring
  rw [h]
  omega

theorem cap_length_mod3 (offset w0 w1 resolution : ℕ) :
    (cap_indices offset w0 w1 resolution).length % 3 = 0 := by
  rw [cap_indices_length]
  omega

theorem barrel_indices_bound (resolution segments : ℕ) :
    ∀ x ∈ barrel_indices resolution segments,
      x < (segments + 1) * (resolution + 1) := by
  intro x hx
  rw [barrel_indices] at hx
  simp only [List.mem_flatMap, List.mem_range, List.mem_cons, List.not_mem_nil,
    or_false] at hx
  obtain ⟨i, hi, j, hj, hx⟩ := hx
  have h1 : (i + 1) * (resolution + 1) ≤ segments * (resolution + 1) :=
    Nat.mul_le_mul_right _ (by omega)
  have h2 : (i + 1) * (resolution + 1) = i * (resolution + 1) + (resolution + 1) :=
    Nat.succ_mul i (resolution + 1)
  have h3 : (segments + 1) * (resolution + 1) =
      segments * (resolution + 1) + (resolution + 1) :=
    Nat.succ_mul segments (resolution + 1)
  generalize i * (resolution + 1) = A at hx h2
  generalize (i + 1) * (resolution + 1) = B at hx h1 h2
  generalize segments * (resolution + 1) = C at h1 h3
  generalize (segments + 1) * (resolution + 1) = D at h3 ⊢
  omega

theorem cap_indices_bound (offset w0 w1 resolution : ℕ) (hw0 : w0 ≤ 1) (hw1 : w1 ≤ 1) :
    ∀ x ∈ cap_indices offset w0 w1 resolution, x < offset + resolution := by
  intro x hx
  rw [cap_indices] at hx
  simp only [List.mem_flatMap, List.mem_range'_1, List.mem_cons, List.not_mem_nil,
    or_false] at hx
  obtain ⟨i, ⟨hi1, hi2⟩, hx⟩ := hx
  omega

theorem cap_triangles_mem (offset w0 w1 resolution : ℕ) (t : ℕ × ℕ × ℕ)
    (ht : t ∈ triangles (cap_indices offset w0 w1 resolution)) :
    ∃ i, 1 ≤ i ∧ i < 1 + (resolution - 2) ∧
      t = (offset, offset + i + w0, offset + i + w1) := by
  rw [cap_indices, mem_triangles_flatMap (List.range' 1 (resolution - 2))
    (fun i => [offset, offset + i + w0, offset + i + w1]) (fun a _ => by simp)] at ht
  simp only [List.mem_range'_1, triangles, List.mem_singleton] at ht
  obtain ⟨i, ⟨hi1, hi2⟩, ht⟩ := ht
  exact ⟨i, hi1, hi2, ht⟩

theorem barrel_triangles_mem (resolution segments : ℕ) (t : ℕ × ℕ × ℕ)
    (ht : t ∈ triangles (barrel_indices resolution segments)) :
    ∃ i j, i < segments ∧ j < resolution ∧
      (t = (i * (resolution + 1) + j, (i + 1) * (resolution + 1) + j,
            i * (resolution + 1) + j + 1) ∨
       t = ((i + 1) * (resolution + 1) + j, (i + 1) * (resolution + 1) + j + 1,
            i * (resolution + 1) + j + 1)) := by
  rw [barrel_indices, mem_triangles_flatMap _ _
    (fun a _ => by
      rw [length_flatMap_const (List.range resolution)
        (fun j => [a * (resolution + 1) + j, (a + 1) * (resolution + 1) + j,
          a * (resolution + 1) + j + 1, (a + 1) * (resolution + 1) + j,
          (a + 1) * (resolution + 1) + j + 1, a * (resolution + 1) + j + 1]) 6
        (fun b _ => rfl), List.length_range]
      omega)] at ht
  obtain ⟨i, hi, ht⟩ := ht
  rw [mem_triangles_flatMap (List.range resolution)
    (fun j => [i * (resolution + 1) + j, (i + 1) * (resolution + 1) + j,
      i * (resolution + 1) + j + 1, (i + 1) * (resolution + 1) + j,
      (i + 1) * (resolution + 1) + j + 1, i * (resolution + 1) + j + 1])
    (fun a _ => by simp)] at ht
  obtain ⟨j, hj, ht⟩ := ht
  simp only [triangles, List.mem_cons, List.not_mem_nil, or_false] at ht
  exact ⟨i, j, List.mem_range.mp hi, List.mem_range.mp hj, ht⟩

theorem triangles_revolved_split (resolution segments : ℕ) (t : ℕ × ℕ × ℕ)
    (ht : t ∈ triangles (revolved_indices resolution segments)) :
    t ∈ triangles (barrel_indices resolution segments) ∨
    t ∈ triangles (cap_indices ((segments + 1) * (resolution + 1)) 1 0 resolution) ∨
    t ∈ triangles (cap_indices ((segments + 1) * (resolution + 1) + resolution)
      0 1 resolution) := by
  rw [revolved_indices] at ht
  rw [triangles_append _ _ (by
    rw [List.length_append]
    have hb := barrel_length_mod3 resolution segments
    have hc := cap_length_mod3 ((segments + 1) * (resolution + 1)) 1 0 resolution
    omega)] at ht
  rw [triangles_append _ _ (barrel_length_mod3 resolution segments)] at ht
  simp only [List.mem_append] at ht
  tauto

/-! Buffer length lemmas for the generated meshes. -/

theorem cylinder_buffer_lengths (sc : ℚ → ℚ × ℚ) (radius height : ℚ)
    (resolution segments : ℕ) (cn : CylinderNormals) :
    ((generate_cylinder_mesh sc radius height resolution segments cn).1).positions.length
      = 2 * resolution + (segments + 1) * (resolution + 1) ∧
    ((generate_cylinder_mesh sc radius height resolution segments cn).1).normals.length
      = 2 * resolution + (segments + 1) * (resolution + 1) ∧
    ((generate_cylinder_mesh sc radius height resolution segments cn).1).uvs.length
      = 2 * resolution + (segments + 1) * (resolution + 1) := by
  refine ⟨?_, ?_, ?_⟩ <;>
    simp [generate_cylinder_mesh, ring_normals, ring_uvs, grid_length] <;> ring

theorem staff_buffer_lengths (sc : ℚ → ℚ × ℚ)
    (radius radial_variance height horizontal_variance : ℚ)
    (resolution segments : ℕ) (u : ℕ → ℚ) :
    (generate_staff_mesh sc radius radial_variance height resolution segments
      horizontal_variance u).positions.length
      = 2 * resolution + (segments + 1) * (resolution + 1) ∧
    (generate_staff_mesh sc radius radial_variance height resolution segments
      horizontal_variance u).normals.length
      = 2 * resolution + (segments + 1) * (resolution + 1) ∧
    (generate_staff_mesh sc radius radial_variance height resolution segments
      horizontal_variance u).uvs.length
      = 2 * resolution + (segments + 1) * (resolution + 1) := by
  refine ⟨?_, ?_, ?_⟩ <;>
    simp [generate_staff_mesh, ring_normals, ring_uvs, grid_length] <;> ring

theorem fclamp_mem (x lo hi : ℚ) (h : lo ≤ hi) :
    lo ≤ fclamp x lo hi ∧ fclamp x lo hi ≤ hi := by
  rw [fclamp]
  split_ifs with h1 h2
  · exact ⟨le_refl lo, h⟩
  · exact ⟨h, le_refl hi⟩
  · exact ⟨by linarith, by linarith⟩

theorem fclamp_eq_self (x lo hi : ℚ) (h1 : lo ≤ x) (h2 : x ≤ hi) :
    fclamp x lo hi = x := by
  rw [fclamp, if_neg (by linarith), if_neg (by linarith)]

theorem ring_uvs_first_segment (resolution segments ring : ℕ) (hr : 3 ≤ resolution)
    (hring : ring < segments + 1) (tail : List (Option ℚ × Option ℚ)) :
    (ring_uvs resolution segments ++ tail)[ring * (resolution + 1)]?
      = some (some 0, none) := by
  rw [List.getElem?_append, if_pos]
  · have h := grid_getElem (segments + 1) (resolution + 1) (ring_uv resolution) ring 0
      hring (by omega)
    simp only [Nat.add_zero] at h
    rw [ring_uvs, h]
    have hr0 : ((resolution : ℚ)) ≠ 0 := by
      exact_mod_cast (show (resolution : ℤ) ≠ 0 by omega)
    simp [ring_uv, fdiv, hr0]
  · rw [ring_uvs, grid_length]
    have h1 : (ring + 1) * (resolution + 1) ≤ (segments + 1) * (resolution + 1) :=
      Nat.mul_le_mul_right _ (by omega)
    have h2 : (ring + 1) * (resolution + 1) = ring * (resolution + 1) + (resolution + 1) :=
      Nat.succ_mul ring (resolution + 1)
    generalize ring * (resolution + 1) = A at h2 ⊢
    generalize (ring + 1) * (resolution + 1) = B at h1 h2
    generalize (segments + 1) * (resolution + 1) = D at h1 ⊢
    omega

/-! Claim theorems. -/

/-- C3. The number of triangle indices emitted by generate_cylinder_mesh at
the spawn_cylinder_mesh parameters resolution 6, segments 1 equals 60, which
equals the source capacity formula; and for every resolution at least 3 and
segments at least 1 the emitted index count equals the formula
(2 * num_faces + 2 * (resolution - 1) * 2) * 3. -/
theorem cylinder_index_count (resolution segments : ℕ)
    (hr : 3 ≤ resolution) (hs : 1 ≤ segments)
    (sc : ℚ → ℚ × ℚ) (radius height : ℚ) (cn : CylinderNormals) :
    ((generate_cylinder_mesh sc (1 / 2) 1 6 1 cn).1).indices.length = 60 ∧
    cylinder_num_indices 6 1 = 60 ∧
    ((generate_cylinder_mesh sc radius height resolution segments cn).1).indices.length
      = cylinder_num_indices resolution segments := by
  refine ⟨?_, by decide, ?_⟩
  · show (revolved_indices 6 1).length = 60
    decide
  show (revolved_indices resolution segments).length
    = cylinder_num_indices resolution segments
  rw [revolved_indices_length]
  simp only [cylinder_num_indices]
  obtain ⟨m, rfl⟩ : ∃ m, resolution = m + 3 := ⟨resolution - 3, by omega⟩
  obtain ⟨k, rfl⟩ : ∃ k, segments = k + 1 := ⟨segments - 1, by omega⟩
  have e1 : m + 3 - 2 = m + 1 := by omega
  have e2 : k + 1 + 1 - 2 = k := by omega
  have e3 : m + 3 - 1 = m + 2 := by omega
  rw [e1, e2, e3]
  ring

/-- Witness for C3 at resolution 6, segments 1. -/
theorem cylinder_index_count_witness :
    (3 ≤ 6 ∧ 1 ≤ 1) ∧
    (((generate_cylinder_mesh sc_probe (1 / 2) 1 6 1 ⟨[], [], ⟨0, 0, 0⟩⟩).1).indices.length = 60 ∧
     cylinder_num_indices 6 1 = 60 ∧
     ((generate_cylinder_mesh sc_probe (1 / 2) 1 6 1 ⟨[], [], ⟨0, 0, 0⟩⟩).1).indices.length
       = cylinder_num_indices 6 1) :=
  ⟨⟨by decide, by decide⟩,
   cylinder_index_count 6 1 (by decide) (by decide) sc_probe (1 / 2) 1 ⟨[], [], ⟨0, 0, 0⟩⟩⟩

/-- C4. For every valid input the cylinder and staff generators emit exactly
2 * resolution + (segments + 1) * (resolution + 1) vertices: the positions,
normals and uvs buffers all have that length. -/
theorem vertex_count_formula (resolution segments : ℕ)
    (hr : 3 ≤ resolution) (hs : 1 ≤ segments)
    (sc : ℚ → ℚ × ℚ) (radius height radial_variance horizontal_variance : ℚ)
    (u : ℕ → ℚ) (cn : CylinderNormals) :
    (((generate_cylinder_mesh sc radius height resolution segments cn).1).positions.length
       = 2 * resolution + (segments + 1) * (resolution + 1) ∧
     ((generate_cylinder_mesh sc radius height resolution segments cn).1).normals.length
       = 2 * resolution + (segments + 1) * (resolution + 1) ∧
     ((generate_cylinder_mesh sc radius height resolution segments cn).1).uvs.length
       = 2 * resolution + (segments + 1) * (resolution + 1)) ∧
    ((generate_staff_mesh sc radius radial_variance height resolution segments
        horizontal_variance u).positions.length
       = 2 * resolution + (segments + 1) * (resolution + 1) ∧
     (generate_staff_mesh sc radius radial_variance height resolution segments
        horizontal_variance u).normals.length
       = 2 * resolution + (segments + 1) * (resolution + 1) ∧
     (generate_staff_mesh sc radius radial_variance height resolution segments
        horizontal_variance u).uvs.length
       = 2 * resolution + (segments + 1) * (resolution + 1)) :=
  ⟨cylinder_buffer_lengths sc radius height resolution segments cn,
   staff_buffer_lengths sc radius radial_variance height horizontal_variance
     resolution segments u⟩

/-- Witness for C4 at resolution 6, segments 1. -/
theorem vertex_count_formula_witness :
    (3 ≤ 6 ∧ 1 ≤ 1) ∧
    ((generate_cylinder_mesh sc_probe (1 / 2) 1 6 1 ⟨[], [], ⟨0, 0, 0⟩⟩).1).positions.length
      = 2 * 6 + (1 + 1) * (6 + 1) :=
  ⟨⟨by decide, by decide⟩,
   (vertex_count_formula 6 1 (by decide) (by decide) sc_probe (1 / 2) 1 (1 / 4) (1 / 10)
     (fun _ => 0) ⟨[], [], ⟨0, 0, 0⟩⟩).1.1⟩

/-- C10. generate_cylinder_mesh appends one position and one direction entry
to the CylinderNormals resource for every mesh vertex it emits, so the two
vectors grow by exactly the mesh vertex count
2 * resolution + (segments + 1) * (resolution + 1) and stay of equal length
whenever they started equal. -/
theorem cylinder_normals_growth (sc : ℚ → ℚ × ℚ) (radius height : ℚ)
    (resolution segments : ℕ) (cn : CylinderNormals) :
    ((generate_cylinder_mesh sc radius height resolution segments cn).2).positions.length
      = cn.positions.length + (2 * resolution + (segments + 1) * (resolution + 1)) ∧
    ((generate_cylinder_mesh sc radius height resolution segments cn).2).directions.length
      = cn.directions.length + (2 * resolution + (segments + 1) * (resolution + 1)) ∧
    ((generate_cylinder_mesh sc radius height resolution segments cn).2).positions.length
      = cn.positions.length
        + ((generate_cylinder_mesh sc radius height resolution segments cn).1).positions.length ∧
    ((generate_cylinder_mesh sc radius height resolution segments cn).2).directions.length
      = cn.directions.length
        + ((generate_cylinder_mesh sc radius height resolution segments cn).1).normals.length ∧
    ((generate_cylinder_mesh sc radius height resolution segments cn).2).positions.length
        + cn.directions.length
      = ((generate_cylinder_mesh sc radius height resolution segments cn).2).directions.length
        + cn.positions.length := by
  refine ⟨?_, ?_, ?_, ?_, ?_⟩ <;>
    simp [generate_cylinder_mesh, ring_normals, ring_uvs, grid_length] <;>
    ring

/-- C6. In the ring loop of the cylinder, staff and crystal generators the uv
V coordinate is ring / segment; at the first angular step of every ring the
divisor segment is zero, so the division by zero (fdiv returning none) is
reached on every ring of every valid input. -/
theorem uv_division_by_zero_every_ring (resolution segments : ℕ)
    (hr : 3 ≤ resolution) (hs : 1 ≤ segments)
    (sc : ℚ → ℚ × ℚ) (radius height radial_variance horizontal_variance : ℚ)
    (u : ℕ → ℚ) (cn : CylinderNormals) :
    (∀ q : ℚ, fdiv q 0 = none) ∧
    (∀ ring, ring < segments + 1 →
      ((generate_cylinder_mesh sc radius height resolution segments cn).1).uvs[ring * (resolution + 1)]?
        = some (some 0, none)) ∧
    (∀ ring, ring < segments + 1 →
      (generate_staff_mesh sc radius radial_variance height resolution segments
        horizontal_variance u).uvs[ring * (resolution + 1)]?
        = some (some 0, none)) ∧
    (∀ ring, ring < 2 →
      (generate_crystal_mesh sc radius height resolution).uvs[ring * (resolution + 1)]?
        = some (some 0, none)) := by
  refine ⟨fun q => by simp [fdiv], fun ring h => ?_, fun ring h => ?_, fun ring h => ?_⟩
  · exact ring_uvs_first_segment resolution segments ring hr h _
  · exact ring_uvs_first_segment resolution segments ring hr h _
  · exact ring_uvs_first_segment resolution 1 ring hr h _

/-- Witness for C6 at resolution 6, segments 1, ring 1. -/
theorem uv_division_by_zero_witness :
    (3 ≤ 6 ∧ 1 ≤ 1 ∧ 1 < 1 + 1) ∧
    ((generate_cylinder_mesh sc_probe (1 / 2) 1 6 1 ⟨[], [], ⟨0, 0, 0⟩⟩).1).uvs[1 * (6 + 1)]?
      = some (some 0, none) :=
  ⟨⟨by decide, by decide, by decide⟩,
   (uv_division_by_zero_every_ring 6 1 (by decide) (by decide) sc_probe (1 / 2) 1 (1 / 4)
     (1 / 10) (fun _ => 0) ⟨[], [], ⟨0, 0, 0⟩⟩).2.1 1 (by decide)⟩

theorem revolved_indices_bound (resolution segments : ℕ) (hr : 3 ≤ resolution) :
    ∀ x ∈ revolved_indices resolution segments,
      x < 2 * resolution + (segments + 1) * (resolution + 1) := by
  intro x hx
  rw [revolved_indices] at hx
  simp only [List.mem_append] at hx
  rcases hx with (hx | hx) | hx
  · have h := barrel_indices_bound resolution segments x hx
    omega
  · have h := cap_indices_bound _ 1 0 resolution (by omega) (by omega) x hx
    omega
  · have h := cap_indices_bound _ 0 1 resolution (by omega) (by omega) x hx
    omega

theorem revolved_triangles_distinct (resolution segments : ℕ) (hr : 3 ≤ resolution) :
    ∀ t ∈ triangles (revolved_indices resolution segments),
      t.1 ≠ t.2.1 ∧ t.1 ≠ t.2.2 ∧ t.2.1 ≠ t.2.2 := by
  intro t ht
  rcases triangles_revolved_split resolution segments t ht with hb | hc | hc
  · obtain ⟨i, j, hi, hj, hcase⟩ := barrel_triangles_mem resolution segments t hb
    have h2 : (i + 1) * (resolution + 1) = i * (resolution + 1) + (resolution + 1) :=
      Nat.succ_mul i (resolution + 1)
    generalize i * (resolution + 1) = A at h2 hcase
    generalize (i + 1) * (resolution + 1) = B at h2 hcase
    rcases hcase with rfl | rfl <;> dsimp only <;> omega
  · obtain ⟨i, hi1, hi2, rfl⟩ := cap_triangles_mem _ 1 0 resolution t hc
    dsimp only
    omega
  · obtain ⟨i, hi1, hi2, rfl⟩ := cap_triangles_mem _ 0 1 resolution t hc
    dsimp only
    omega

/-- C5. For every valid input, every triangle index emitted by the cylinder
and staff generators is strictly below the vertex count, and the three indices
of every emitted triangle are pairwise distinct. -/
theorem indices_in_bounds_distinct (resolution segments : ℕ)
    (hr : 3 ≤ resolution) (hs : 1 ≤ segments)
    (sc : ℚ → ℚ × ℚ) (radius height radial_variance horizontal_variance : ℚ)
    (u : ℕ → ℚ) (cn : CylinderNormals) :
    (∀ x ∈ ((generate_cylinder_mesh sc radius height resolution segments cn).1).indices,
      x < ((generate_cylinder_mesh sc radius height resolution segments cn).1).positions.length) ∧
    (∀ t ∈ triangles ((generate_cylinder_mesh sc radius height resolution segments cn).1).indices,
      t.1 ≠ t.2.1 ∧ t.1 ≠ t.2.2 ∧ t.2.1 ≠ t.2.2) ∧
    (∀ x ∈ (generate_staff_mesh sc radius radial_variance height resolution segments
        horizontal_variance u).indices,
      x < (generate_staff_mesh sc radius radial_variance height resolution segments
        horizontal_variance u).positions.length) ∧
    (∀ t ∈ triangles (generate_staff_mesh sc radius radial_variance height resolution
        segments horizontal_variance u).indices,
      t.1 ≠ t.2.1 ∧ t.1 ≠ t.2.2 ∧ t.2.1 ≠ t.2.2) := by
  obtain ⟨hp, _, _⟩ := cylinder_buffer_lengths sc radius height resolution segments cn
  obtain ⟨hps, _, _⟩ := staff_buffer_lengths sc radius radial_variance height
    horizontal_variance resolution segments u
  refine ⟨fun x hx => ?_, fun t ht => ?_, fun x hx => ?_, fun t ht => ?_⟩
  · rw [hp]
    exact revolved_indices_bound resolution segments hr x hx
  · exact revolved_triangles_distinct resolution segments hr t ht
  · rw [hps]
    exact revolved_indices_bound resolution segments hr x hx
  · exact revolved_triangles_distinct resolution segments hr t ht

/-- Witness for C5 at resolution 6, segments 1, on the first emitted index
and the first emitted triangle. -/
theorem indices_in_bounds_distinct_witness :
    (3 ≤ 6 ∧ 1 ≤ 1) ∧
    (0 < ((generate_cylinder_mesh sc_probe (1 / 2) 1 6 1 ⟨[], [], ⟨0, 0, 0⟩⟩).1).positions.length ∧
     ((0, 7, 1) : ℕ × ℕ × ℕ).1 ≠ ((0, 7, 1) : ℕ × ℕ × ℕ).2.1) :=
  ⟨⟨by decide, by decide⟩,
   ((indices_in_bounds_distinct 6 1 (by decide) (by decide) sc_probe (1 / 2) 1 (1 / 4)
       (1 / 10) (fun _ => 0) ⟨[], [], ⟨0, 0, 0⟩⟩).1 0 (by decide)),
   ((indices_in_bounds_distinct 6 1 (by decide) (by decide) sc_probe (1 / 2) 1 (1 / 4)
       (1 / 10) (fun _ => 0) ⟨[], [], ⟨0, 0, 0⟩⟩).2.1 (0, 7, 1) (by decide)).1⟩

/-- C7. With a drag button held, the new pitch always lies in the configured
closed range, a vertical delta that would push pitch below the configured
minimum leaves pitch exactly at the minimum, and yaw is never clamped: it is
always exactly the unclamped value yaw - delta.x * yaw_speed. The default
range is the asymmetric interval from -(FRAC_PI_2 - 0.01) to 0. -/
theorem pitch_clamped_in_range (camera_settings : CameraSettings)
    (hle : camera_settings.pitch_range_start ≤ camera_settings.pitch_range_end)
    (cosF sinF : ℚ → ℚ) (pressed_right pressed_middle : Bool)
    (hpress : (pressed_right || pressed_middle) = true)
    (delta : ℚ × ℚ) (camera_pivot : TransformQ) :
    (camera_settings.pitch_range_start ≤
        (handle_camera_movement cosF sinF camera_settings pressed_right pressed_middle
          delta camera_pivot).pitch ∧
      (handle_camera_movement cosF sinF camera_settings pressed_right pressed_middle
          delta camera_pivot).pitch ≤ camera_settings.pitch_range_end) ∧
    (camera_pivot.pitch - delta.2 * camera_settings.pitch_speed
        < camera_settings.pitch_range_start →
      (handle_camera_movement cosF sinF camera_settings pressed_right pressed_middle
          delta camera_pivot).pitch = camera_settings.pitch_range_start) ∧
    (handle_camera_movement cosF sinF camera_settings pressed_right pressed_middle
        delta camera_pivot).yaw
      = camera_pivot.yaw - delta.1 * camera_settings.yaw_speed ∧
    CameraSettings.default.pitch_range_start = -(FRAC_PI_2 - 1 / 100) ∧
    CameraSettings.default.pitch_range_end = 0 := by
  have hcl := fclamp_mem (camera_pivot.pitch - delta.2 * camera_settings.pitch_speed)
    camera_settings.pitch_range_start camera_settings.pitch_range_end hle
  have hstate : handle_camera_movement cosF sinF camera_settings pressed_right
      pressed_middle delta camera_pivot
      = ⟨camera_pivot.yaw - delta.1 * camera_settings.yaw_speed,
         fclamp (camera_pivot.pitch - delta.2 * camera_settings.pitch_speed)
           camera_settings.pitch_range_start camera_settings.pitch_range_end,
         camera_pivot.roll,
         vsub CAMERA_TARGET (vsmul (forward cosF sinF
           (camera_pivot.yaw - delta.1 * camera_settings.yaw_speed)
           (fclamp (camera_pivot.pitch - delta.2 * camera_settings.pitch_speed)
             camera_settings.pitch_range_start camera_settings.pitch_range_end))
           camera_settings.orbit_distance)⟩ := by
    simp [handle_camera_movement, hpress]
  rw [hstate]
  refine ⟨⟨hcl.1, hcl.2⟩, fun hlt => ?_, rfl, rfl, rfl⟩
  show fclamp (camera_pivot.pitch - delta.2 * camera_settings.pitch_speed)
    camera_settings.pitch_range_start camera_settings.pitch_range_end
    = camera_settings.pitch_range_start
  rw [fclamp, if_pos hlt]

/-- Witness for C7: a large downward drag from pitch 0 with the default
settings lands inside the configured range. -/
theorem pitch_clamped_in_range_witness :
    (CameraSettings.default.pitch_range_start ≤ CameraSettings.default.pitch_range_end ∧
     (true || false) = true) ∧
    (CameraSettings.default.pitch_range_start ≤
        (handle_camera_movement (fun _ => 1) (fun _ => 0) CameraSettings.default true false
          (0, 100) ⟨0, 0, 0, ⟨0, 0, 0⟩⟩).pitch ∧
      (handle_camera_movement (fun _ => 1) (fun _ => 0) CameraSettings.default true false
          (0, 100) ⟨0, 0, 0, ⟨0, 0, 0⟩⟩).pitch ≤ CameraSettings.default.pitch_range_end) :=
  ⟨⟨by norm_num [CameraSettings.default, FRAC_PI_2], by decide⟩,
   (pitch_clamped_in_range CameraSettings.default
     (by norm_num [CameraSettings.default, FRAC_PI_2]) (fun _ => 1) (fun _ => 0)
     true false (by decide) (0, 100) ⟨0, 0, 0, ⟨0, 0, 0⟩⟩).1⟩

/-- C8 counterexample. At a transform whose position is not already on the
orbit sphere (here the origin, with yaw and pitch 0), the update with a held
button and zero pointer delta moves the position to
target - forward * orbit_distance = (0, 3/2, 21/4), so the position is not
left unchanged even though yaw and pitch are. -/
theorem zero_delta_counterexample :
    (handle_camera_movement (fun _ => 1) (fun _ => 0) CameraSettings.default true false
      (0, 0) ⟨0, 0, 0, ⟨0, 0, 0⟩⟩).translation = ⟨0, 3 / 2, 21 / 4⟩ ∧
    (⟨0, 3 / 2, 21 / 4⟩ : Vec3q) ≠ ⟨0, 0, 0⟩ ∧
    (handle_camera_movement (fun _ => 1) (fun _ => 0) CameraSettings.default true false
      (0, 0) ⟨0, 0, 0, ⟨0, 0, 0⟩⟩).yaw = 0 ∧
    (handle_camera_movement (fun _ => 1) (fun _ => 0) CameraSettings.default true false
      (0, 0) ⟨0, 0, 0, ⟨0, 0, 0⟩⟩).pitch = 0 := by
  refine ⟨?_, ?_, ?_, ?_⟩ <;>
    norm_num [handle_camera_movement, fclamp, forward, vsub, vsmul, CAMERA_TARGET,
      CameraSettings.default, FRAC_PI_2, CAMERA_DISTANCE, Vec3q.mk.injEq]

/-- C8 amended. With a drag button held and zero delta, yaw, pitch and roll
are unchanged provided the pitch already lies in the configured range, the
whole transform is unchanged provided the position moreover already equals
target - forward * orbit_distance, and the zero-delta update is idempotent. -/
theorem zero_delta_update_amended (cosF sinF : ℚ → ℚ)
    (camera_settings : CameraSettings)
    (hle : camera_settings.pitch_range_start ≤ camera_settings.pitch_range_end)
    (pressed_middle : Bool) (t : TransformQ)
    (hin1 : camera_settings.pitch_range_start ≤ t.pitch)
    (hin2 : t.pitch ≤ camera_settings.pitch_range_end) :
    (handle_camera_movement cosF sinF camera_settings true pressed_middle (0, 0) t).yaw
      = t.yaw ∧
    (handle_camera_movement cosF sinF camera_settings true pressed_middle (0, 0) t).pitch
      = t.pitch ∧
    (handle_camera_movement cosF sinF camera_settings true pressed_middle (0, 0) t).roll
      = t.roll ∧
    (t.translation = vsub CAMERA_TARGET
        (vsmul (forward cosF sinF t.yaw t.pitch) camera_settings.orbit_distance) →
      handle_camera_movement cosF sinF camera_settings true pressed_middle (0, 0) t = t) ∧
    handle_camera_movement cosF sinF camera_settings true pressed_middle (0, 0)
        (handle_camera_movement cosF sinF camera_settings true pressed_middle (0, 0) t)
      = handle_camera_movement cosF sinF camera_settings true pressed_middle (0, 0) t := by
  obtain ⟨ty, tp, tr, ttr⟩ := t
  simp only at hin1 hin2
  have hstate : handle_camera_movement cosF sinF camera_settings true pressed_middle (0, 0)
      ⟨ty, tp, tr, ttr⟩
      = ⟨ty, tp, tr, vsub CAMERA_TARGET
          (vsmul (forward cosF sinF ty tp) camera_settings.orbit_distance)⟩ := by
    simp [handle_camera_movement, fclamp_eq_self tp camera_settings.pitch_range_start
      camera_settings.pitch_range_end hin1 hin2]
  rw [hstate]
  refine ⟨rfl, rfl, rfl, fun htr => ?_, ?_⟩
  · rw [← htr]
  · simp [handle_camera_movement, fclamp_eq_self tp camera_settings.pitch_range_start
      camera_settings.pitch_range_end hin1 hin2]

/-- Witness for the amended C8 at the default settings and pitch -1/2. -/
theorem zero_delta_update_amended_witness :
    (CameraSettings.default.pitch_range_start ≤ CameraSettings.default.pitch_range_end ∧
     CameraSettings.default.pitch_range_start ≤ -(1 / 2 : ℚ) ∧
     -(1 / 2 : ℚ) ≤ CameraSettings.default.pitch_range_end) ∧
    ((handle_camera_movement (fun _ => 1) (fun _ => 0) CameraSettings.default true false
        (0, 0) ⟨5, -(1 / 2), 0, ⟨1, 2, 3⟩⟩).yaw = 5 ∧
     (handle_camera_movement (fun _ => 1) (fun _ => 0) CameraSettings.default true false
        (0, 0) ⟨5, -(1 / 2), 0, ⟨1, 2, 3⟩⟩).pitch = -(1 / 2)) :=
  ⟨⟨by norm_num [CameraSettings.default, FRAC_PI_2],
    by norm_num [CameraSettings.default, FRAC_PI_2],
    by norm_num [CameraSettings.default]⟩,
   (zero_delta_update_amended (fun _ => 1) (fun _ => 0) CameraSettings.default
      (by norm_num [CameraSettings.default, FRAC_PI_2])
      false ⟨5, -(1 / 2), 0, ⟨1, 2, 3⟩⟩
      (by norm_num [CameraSettings.default, FRAC_PI_2])
      (by norm_num [CameraSettings.default])).1,
   (zero_delta_update_amended (fun _ => 1) (fun _ => 0) CameraSettings.default
      (by norm_num [CameraSettings.default, FRAC_PI_2])
      false ⟨5, -(1 / 2), 0, ⟨1, 2, 3⟩⟩
      (by norm_num [CameraSettings.default, FRAC_PI_2])
      (by norm_num [CameraSettings.default])).2.1⟩

/-- C9. With a drag button held, the new translation equals
target - forward(new yaw, new pitch) * orbit_distance; consequently, when the
trig values of the new angles lie on the unit circle and the orbit distance is
nonnegative, the distance from the camera to the target equals the configured
orbit distance, and the result is independent of the previous position. -/
theorem orbit_distance_invariant (camera_settings : CameraSettings)
    (cosF sinF : ℚ → ℚ) (pressed_right pressed_middle : Bool)
    (hpress : (pressed_right || pressed_middle) = true)
    (delta : ℚ × ℚ) (t s : TransformQ)
    (hd : 0 ≤ camera_settings.orbit_distance)
    (hy : cosF (t.yaw - delta.1 * camera_settings.yaw_speed) ^ 2
        + sinF (t.yaw - delta.1 * camera_settings.yaw_speed) ^ 2 = 1)
    (hp : cosF (fclamp (t.pitch - delta.2 * camera_settings.pitch_speed)
          camera_settings.pitch_range_start camera_settings.pitch_range_end) ^ 2
        + sinF (fclamp (t.pitch - delta.2 * camera_settings.pitch_speed)
          camera_settings.pitch_range_start camera_settings.pitch_range_end) ^ 2 = 1) :
    (handle_camera_movement cosF sinF camera_settings pressed_right pressed_middle
        delta t).translation
      = vsub CAMERA_TARGET (vsmul (forward cosF sinF
          (t.yaw - delta.1 * camera_settings.yaw_speed)
          (fclamp (t.pitch - delta.2 * camera_settings.pitch_speed)
            camera_settings.pitch_range_start camera_settings.pitch_range_end))
          camera_settings.orbit_distance) ∧
    Real.sqrt ((distSq (handle_camera_movement cosF sinF camera_settings pressed_right
          pressed_middle delta t).translation CAMERA_TARGET : ℚ) : ℝ)
      = (camera_settings.orbit_distance : ℝ) ∧
    (s.yaw = t.yaw → s.pitch = t.pitch →
      (handle_camera_movement cosF sinF camera_settings pressed_right pressed_middle
          delta s).translation
        = (handle_camera_movement cosF sinF camera_settings pressed_right pressed_middle
          delta t).translation) := by
  refine ⟨by simp [handle_camera_movement, hpress], ?_, fun h1 h2 => by
    simp [handle_camera_movement, hpress, h1, h2]⟩
  have hq : distSq (handle_camera_movement cosF sinF camera_settings pressed_right
      pressed_middle delta t).translation CAMERA_TARGET
      = camera_settings.orbit_distance ^ 2 := by
    simp only [handle_camera_movement, hpress, if_true, distSq, vsub, vsmul, forward,
      CAMERA_TARGET]
    ring_nf
    linear_combination (camera_settings.orbit_distance ^ 2
        * cosF (fclamp (t.pitch - delta.2 * camera_settings.pitch_speed)
            camera_settings.pitch_range_start camera_settings.pitch_range_end) ^ 2) * hy
      + camera_settings.orbit_distance ^ 2 * hp
  rw [hq]
  push_cast
  rw [Real.sqrt_sq (by exact_mod_cast hd)]

/-- Witness for C9 with unit-circle trig values cos = 1, sin = 0. -/
theorem orbit_distance_invariant_witness :
    ((true || false) = true ∧ (0 : ℚ) ≤ CameraSettings.default.orbit_distance) ∧
    Real.sqrt ((distSq (handle_camera_movement (fun _ => 1) (fun _ => 0)
        CameraSettings.default true false (0, 0) ⟨0, 0, 0, ⟨0, 0, 0⟩⟩).translation
        CAMERA_TARGET : ℚ) : ℝ)
      = (CameraSettings.default.orbit_distance : ℝ) :=
  ⟨⟨by decide, by norm_num [CameraSettings.default, CAMERA_DISTANCE]⟩,
   (orbit_distance_invariant CameraSettings.default (fun _ => 1) (fun _ => 0) true false
     (by decide) (0, 0) ⟨0, 0, 0, ⟨0, 0, 0⟩⟩ ⟨0, 0, 0, ⟨0, 0, 0⟩⟩
     (by norm_num [CameraSettings.default, CAMERA_DISTANCE])
     (by norm_num) (by norm_num)).2.1⟩

theorem crystal_positions_getElem (sc : ℚ → ℚ × ℚ) (radius height : ℚ)
    (resolution : ℕ) (ring seg : ℕ) (hring : ring < 2) (hseg : seg < resolution + 1) :
    (generate_crystal_mesh sc radius height resolution).positions[ring * (resolution + 1) + seg]?
      = some (ring_position sc radius height resolution 1 ring seg) := by
  have hshape : (generate_crystal_mesh sc radius height resolution).positions
      = grid (1 + 1) (resolution + 1) (ring_position sc radius height resolution 1)
        ++ (((List.range resolution).map (cap_position sc radius (height / 2) resolution))
          ++ ((List.range resolution).map
            (cap_position sc radius (-(height / 2)) resolution))) := rfl
  rw [hshape, List.getElem?_append, if_pos]
  · exact grid_getElem (1 + 1) (resolution + 1) _ ring seg hring hseg
  · rw [grid_length]
    have h1 : (ring + 1) * (resolution + 1) ≤ (1 + 1) * (resolution + 1) :=
      Nat.mul_le_mul_right _ (by omega)
    have h2 : (ring + 1) * (resolution + 1) = ring * (resolution + 1) + (resolution + 1) :=
      Nat.succ_mul ring (resolution + 1)
    generalize ring * (resolution + 1) = A at h2 ⊢
    generalize (ring + 1) * (resolution + 1) = B at h1 h2
    generalize (1 + 1) * (resolution + 1) = D at h1 ⊢
    omega

/-- C1 counterexample. At the spawn_crystal_mesh call-site input
(radius 0.5, radial variance 0.25 passed for the height parameter,
resolution 6), the vertex of the top ring at angular step 3 has exactly the
same x and z coordinates, hence the same radius, as the corresponding vertex
of the bottom ring: the crystal is not tapered. -/
theorem crystal_no_taper_counterexample :
    Option.map (fun v => (v.x, v.z))
      ((generate_crystal_mesh sc_probe (1 / 2) (1 / 4) 6).positions[0 * (6 + 1) + 3]?)
      = Option.map (fun v => (v.x, v.z))
      ((generate_crystal_mesh sc_probe (1 / 2) (1 / 4) 6).positions[1 * (6 + 1) + 3]?) := by
  rw [crystal_positions_getElem sc_probe (1 / 2) (1 / 4) 6 0 3 (by omega) (by omega),
    crystal_positions_getElem sc_probe (1 / 2) (1 / 4) 6 1 3 (by omega) (by omega)]
  simp [ring_position]

/-- C1 amended. The crystal generator uses the radius parameter unchanged at
every ring: for every valid input, corresponding vertices of any two rings
have identical x and z coordinates, so the radius used at the top ring always
equals the radius used at the bottom ring; the per-ring radius is constant,
not linearly varied. -/
theorem crystal_radius_constant (sc : ℚ → ℚ × ℚ) (radius height : ℚ)
    (resolution : ℕ) (hr : 3 ≤ resolution) (hradius : 0 < radius)
    (ring1 ring2 seg : ℕ) (h1 : ring1 < 2) (h2 : ring2 < 2)
    (hseg : seg < resolution + 1) :
    Option.map (fun v => (v.x, v.z))
      ((generate_crystal_mesh sc radius height resolution).positions[ring1 * (resolution + 1) + seg]?)
      = Option.map (fun v => (v.x, v.z))
      ((generate_crystal_mesh sc radius height resolution).positions[ring2 * (resolution + 1) + seg]?) := by
  rw [crystal_positions_getElem sc radius height resolution ring1 seg h1 hseg,
    crystal_positions_getElem sc radius height resolution ring2 seg h2 hseg]
  simp [ring_position]

/-- Witness for the amended C1 at the call-site input, comparing the bottom
and top rings at angular step 3. -/
theorem crystal_radius_constant_witness :
    (3 ≤ 6 ∧ (0 : ℚ) < 1 / 2 ∧ 0 < 2 ∧ 1 < 2 ∧ 3 < 6 + 1) ∧
    Option.map (fun v => (v.x, v.z))
      ((generate_crystal_mesh sc_probe (1 / 2) (1 / 4) 6).positions[0 * (6 + 1) + 3]?)
      = Option.map (fun v => (v.x, v.z))
      ((generate_crystal_mesh sc_probe (1 / 2) (1 / 4) 6).positions[1 * (6 + 1) + 3]?) :=
  ⟨⟨by decide, by norm_num, by decide, by decide, by decide⟩,
   crystal_radius_constant sc_probe (1 / 2) (1 / 4) 6 (by decide) (by norm_num)
     0 1 3 (by decide) (by decide) (by decide)⟩

/-- C2 counterexample. At the spawn_cone_mesh call-site input (height 1,
radius 0.5, resolution 64), the apex vertex is emitted with the zero normal,
not a non-zero normal derived from the half-angle. -/
theorem cone_apex_normal_zero_counterexample :
    (generate_cone_mesh sc_probe (fun q => q) 1 (1 / 2) 64).normals[0]?
      = some ⟨0, 0, 0⟩ := by
  simp [generate_cone_mesh]

/-- C2 amended. For every valid input the cone generator emits the apex
vertex with the zero normal (deliberately, per the source comment, so that
the shading of the cone is unaffected), while the analytically computed
half-angle normal, (cos, radius / height, sin) scaled by
1 / sqrt(1 + (radius / height) ^ 2), is emitted for each lateral base vertex. -/
theorem cone_normals_characterization (sc : ℚ → ℚ × ℚ) (sqrtF : ℚ → ℚ)
    (height radius : ℚ) (resolution : ℕ) (hr : 3 ≤ resolution)
    (hh : 0 < height) (hrad : 0 < radius) (seg : ℕ) (hseg : seg < resolution) :
    (generate_cone_mesh sc sqrtF height radius resolution).normals[0]? = some ⟨0, 0, 0⟩ ∧
    (generate_cone_mesh sc sqrtF height radius resolution).normals[seg + 1]?
      = some (cone_side_normal sc (radius / height)
          ((sqrtF (1 + radius / height * (radius / height)))⁻¹) resolution seg) := by
  have hshape : (generate_cone_mesh sc sqrtF height radius resolution).normals
      = [(⟨0, 0, 0⟩ : Vec3q)]
        ++ (List.range resolution).map (cone_side_normal sc (radius / height)
            ((sqrtF (1 + radius / height * (radius / height)))⁻¹) resolution)
        ++ (List.range resolution).map (fun _ => (⟨0, -1, 0⟩ : Vec3q)) := rfl
  constructor
  · rw [hshape]
    simp
  · rw [hshape]
    rw [List.getElem?_append, if_pos (by
      simp only [List.length_append, List.length_map, List.length_range,
        List.length_singleton]
      omega)]
    rw [List.getElem?_append_right (by simp)]
    simp [List.getElem?_map, List.getElem?_range, hseg]

/-- Witness for the amended C2 at the call-site input, lateral vertex 0. -/
theorem cone_normals_characterization_witness :
    (3 ≤ 64 ∧ (0 : ℚ) < 1 ∧ (0 : ℚ) < 1 / 2 ∧ 0 < 64) ∧
    ((generate_cone_mesh sc_probe (fun q => q) 1 (1 / 2) 64).normals[0]? = some ⟨0, 0, 0⟩ ∧
     (generate_cone_mesh sc_probe (fun q => q) 1 (1 / 2) 64).normals[0 + 1]?
       = some (cone_side_normal sc_probe (1 / 2 / 1)
           (((fun q => q) (1 + 1 / 2 / 1 * (1 / 2 / 1)))⁻¹) 64 0)) :=
  ⟨⟨by decide, by norm_num, by norm_num, by decide⟩,
   cone_normals_characterization sc_probe (fun q => q) 1 (1 / 2) 64 (by decide)
     (by norm_num) (by norm_num) 0 (by decide)⟩

end StaffScene
